import Mathlib

/-!
# Verification of the timesketch ACL evaluator

Shallow embedding of `timesketch/apps/sketch/models.py`: the
`AccessControlEntry` data model and the module-level evaluator functions
`ace_is_public`, `ace_make_public`, `ace_make_private`, `ace_can_read`,
`ace_can_write`, together with `Sketch.get_collaborators`.

Modelling choices, all read off the source:
* An actor identity is a `Nat`; the `user` field of an ACE is `Option Nat`,
  with `none` standing for Django's `user=None` public sentinel.  A resource
  owner is a bare `Nat` because `owner = models.ForeignKey(User)` is a
  non-nullable foreign key.
* A resource's generic ACL relation is a `List ACE`; Django's
  `queryset.get(...)` returns the unique matching row, raises
  `ObjectDoesNotExist` on zero matches and `MultipleObjectsReturned` on
  several.  `aclGet` returns `Except` over those outcomes, with the
  `ObjectDoesNotExist` case reified as `Option.none` because every call site
  in the source catches exactly that exception.
* `ace_make_public` contains `if not ace.read:` although the model field is
  named `permission_read`; on a Django model instance that attribute access
  raises `AttributeError`.  The embedding makes that branch produce
  `PyError.attributeError` with the store unchanged (the exception fires
  before any save).
* Mutating operations return the resulting store paired with the optionally
  raised exception, so that state at the moment an exception propagates is
  still visible.
-/

deriving instance DecidableEq for Except

/-- One row of the `AccessControlEntry` Django model: the nullable `user`
foreign key and the three permission flags.  (`content_type`/`object_id`
tie an ACE to its resource; the embedding keeps each resource's ACEs in the
resource itself, which is what the generic relation `acl` provides.) -/
structure ACE where
  user : Option Nat
  permission_read : Bool
  permission_write : Bool
  permission_delete : Bool
deriving DecidableEq, Repr

/-- A protected resource (`Sketch` or `Timeline`): its `owner` foreign key
and its generic `acl` relation. -/
structure Resource where
  owner : Nat
  acl : List ACE
deriving DecidableEq, Repr

/-- Exceptions the evaluator code can let propagate. -/
inductive PyError where
  /-- Django `MultipleObjectsReturned` from `queryset.get` with several rows. -/
  | multipleObjectsReturned
  /-- Python `AttributeError`, raised by `ace.read` since the model has no
  `read` field. -/
  | attributeError
deriving DecidableEq, Repr

/-- Django `queryset.get(**filter)` on a resource's ACL: `ok (some a)` when
exactly one row matches, `ok none` for the `ObjectDoesNotExist` that every
caller in the source catches, and `multipleObjectsReturned` otherwise. -/
def aclGet (p : ACE → Bool) (acl : List ACE) : Except PyError (Option ACE) :=
  match acl.filter p with
  | [] => .ok none
  | [a] => .ok (some a)
  | _ :: _ :: _ => .error .multipleObjectsReturned

/-- `ace_is_public(object)`: `object.acl.get(user=None, permission_read=True)`
exists. -/
def ace_is_public (o : Resource) : Except PyError Bool :=
  match aclGet (fun a => a.user == none && a.permission_read) o.acl with
  | .error e => .error e
  | .ok (some _) => .ok true
  | .ok none => .ok false

/-- `ace_can_write(object, user)`: the owner, or an ACE
`object.acl.get(user=user, permission_write=True)`. -/
def ace_can_write (o : Resource) (user : Option Nat) : Except PyError Bool :=
  if user == some o.owner then
    .ok true
  else
    match aclGet (fun a => a.user == user && a.permission_write) o.acl with
    | .error e => .error e
    | .ok (some _) => .ok true
    | .ok none => .ok false

/-- `ace_can_read(object, user)`: owner check, then `ace_is_public`, then the
personal ACE `object.acl.get(user=user)` whose `permission_read` decides. -/
def ace_can_read (o : Resource) (user : Option Nat) : Except PyError Bool :=
  if user == some o.owner then
    .ok true
  else
    match ace_is_public o with
    | .error e => .error e
    | .ok true => .ok true
    | .ok false =>
      match aclGet (fun a => a.user == user) o.acl with
      | .error e => .error e
      | .ok none => .ok false
      | .ok (some ace) => .ok ace.permission_read

/-- `ace_make_public(object, user)`.  Returns the resulting store and the
exception that propagated, if any.  The `ok (some ace)` branch of the lookup
executes `if not ace.read:`, and `ace.read` does not exist on the model, so
that branch raises `AttributeError` before anything is saved. -/
def ace_make_public (o : Resource) (user : Option Nat) : Resource × Option PyError :=
  match ace_can_write o user with
  | .error e => (o, some e)
  | .ok false => (o, none)
  | .ok true =>
    match aclGet (fun a => a.user == none) o.acl with
    | .error e => (o, some e)
    | .ok (some _ace) => (o, some .attributeError)
    | .ok none =>
      ({ o with acl := o.acl ++ [⟨none, true, false, false⟩] }, none)

/-- `ace_make_private(object, user)`: gate on `ace_can_write`, then delete the
row returned by `object.acl.get(user=None)` when it exists. -/
def ace_make_private (o : Resource) (user : Option Nat) : Resource × Option PyError :=
  match ace_can_write o user with
  | .error e => (o, some e)
  | .ok false => (o, none)
  | .ok true =>
    match aclGet (fun a => a.user == none) o.acl with
    | .error e => (o, some e)
    | .ok (some ace) => ({ o with acl := o.acl.erase ace }, none)
    | .ok none => (o, none)

/-- `Sketch.get_collaborators`: iterate `self.acl.all()` and add the ACE
itself (the source's `collaborators_set.add(ace)`) whenever `ace.user` is
truthy and differs from the owner.  Python's `set()` becomes `Finset ACE`. -/
def get_collaborators (o : Resource) : Finset ACE :=
  (o.acl.filter (fun a => a.user.isSome && !(a.user == some o.owner))).toFinset

/-- The sequence `make_public(o, u)` then `make_private(·, u)`, with an
exception from the first call propagating (the second call never runs). -/
def publicThenPrivate (o : Resource) (u : Option Nat) : Resource × Option PyError :=
  match ace_make_public o u with
  | (o1, some e) => (o1, some e)
  | (o1, none) => ace_make_private o1 u

/-- The §3 uniqueness invariant: at most one ACE per actor on a resource
(`none` included, so at most one public ACE). -/
def uniqueACL (o : Resource) : Prop :=
  o.acl.Pairwise (fun a b => a.user ≠ b.user)

instance (o : Resource) : Decidable (uniqueACL o) := by
  unfold uniqueACL
  exact List.instDecidablePairwise o.acl

/-- Two ACEs of a store satisfying the uniqueness invariant that carry the
same `user` are the same ACE. -/
lemma unique_user_eq {o : Resource} (h : uniqueACL o) {a b : ACE}
    (ha : a ∈ o.acl) (hb : b ∈ o.acl) (hab : a.user = b.user) : a = b := by
  by_contra hne
  exact (List.Pairwise.forall (fun x y hxy => hxy.symm) h ha hb hne) hab

/-- Under the uniqueness invariant, a lookup whose filter pins the `user`
field to a fixed value matches at most one row, so Django `get` coincides
with `List.find?` and never raises `MultipleObjectsReturned`. -/
lemma aclGet_eq_find? (p : ACE → Bool) (u : Option Nat) {l : List ACE}
    (hp : ∀ a, p a = true → a.user = u)
    (h : l.Pairwise (fun a b => a.user ≠ b.user)) :
    aclGet p l = .ok (l.find? p) := by
  induction l with
  | nil => rfl
  | cons a l ih =>
    rw [List.pairwise_cons] at h
    by_cases hpa : p a = true
    · have hfl : l.filter p = [] := by
        rw [List.filter_eq_nil_iff]
        intro b hb hpb
        exact h.1 b hb ((hp a hpa).trans (hp b hpb).symm)
      simp [aclGet, List.filter_cons, hpa, hfl, List.find?_cons]
    · have h1 : aclGet p (a :: l) = aclGet p l := by
        simp [aclGet, List.filter_cons, hpa]
      have h2 : (a :: l).find? p = l.find? p := by
        simp [List.find?_cons, hpa]
      rw [h1, h2, ih h.2]

/-- `ace_is_public` computed: under the uniqueness invariant it never raises
and answers whether some ACE has the public sentinel and the read flag. -/
lemma ace_is_public_eq (o : Resource) (h : uniqueACL o) :
    ace_is_public o
      = .ok (o.acl.any (fun a => a.user == none && a.permission_read)) := by
  unfold ace_is_public
  rw [aclGet_eq_find? _ none
    (fun a ha => by
      rw [Bool.and_eq_true] at ha
      exact eq_of_beq ha.1) h]
  cases hf : o.acl.find? (fun a => a.user == none && a.permission_read) with
  | none =>
    have hall := List.find?_eq_none.mp hf
    have : o.acl.any (fun a => a.user == none && a.permission_read) = false := by
      rw [List.any_eq_false]
      exact hall
    simp [this]
  | some a =>
    have hmem := List.mem_of_find?_eq_some hf
    have hpa := List.find?_some hf
    have : o.acl.any (fun a => a.user == none && a.permission_read) = true :=
      List.any_eq_true.mpr ⟨a, hmem, hpa⟩
    simp [this]

/-- `ace_can_write` computed: owner, or some ACE for that user with the
write flag; never raises under the uniqueness invariant. -/
lemma ace_can_write_eq (o : Resource) (u : Option Nat) (h : uniqueACL o) :
    ace_can_write o u
      = .ok (u == some o.owner
          || o.acl.any (fun a => a.user == u && a.permission_write)) := by
  unfold ace_can_write
  by_cases hu : (u == some o.owner) = true
  · simp [hu]
  · rw [if_neg hu]
    rw [aclGet_eq_find? _ u
      (fun a ha => by
        rw [Bool.and_eq_true] at ha
        exact eq_of_beq ha.1) h]
    rw [Bool.eq_false_iff.mpr hu, Bool.false_or]
    cases hf : o.acl.find? (fun a => a.user == u && a.permission_write) with
    | none =>
      have hall := List.find?_eq_none.mp hf
      have : o.acl.any (fun a => a.user == u && a.permission_write) = false := by
        rw [List.any_eq_false]
        exact hall
      simp [this]
    | some a =>
      have hpa := List.find?_some hf
      have : o.acl.any (fun a => a.user == u && a.permission_write) = true :=
        List.any_eq_true.mpr ⟨a, List.mem_of_find?_eq_some hf, hpa⟩
      simp [this]

/-- `ace_can_read` computed: owner, or public, or the personal ACE carries
the read flag; never raises under the uniqueness invariant. -/
lemma ace_can_read_eq (o : Resource) (u : Option Nat) (h : uniqueACL o) :
    ace_can_read o u
      = .ok (u == some o.owner
          || o.acl.any (fun a => a.user == none && a.permission_read)
          || o.acl.any (fun a => a.user == u && a.permission_read)) := by
  unfold ace_can_read
  by_cases hu : (u == some o.owner) = true
  · simp [hu]
  · rw [if_neg hu, ace_is_public_eq o h, Bool.eq_false_iff.mpr hu, Bool.false_or]
    cases hpub : o.acl.any (fun a => a.user == none && a.permission_read) with
    | true => simp
    | false =>
      rw [Bool.false_or]
      rw [aclGet_eq_find? _ u (fun a ha => eq_of_beq ha) h]
      cases hf : o.acl.find? (fun a => a.user == u) with
      | none =>
        have hall := List.find?_eq_none.mp hf
        have : o.acl.any (fun a => a.user == u && a.permission_read) = false := by
          rw [List.any_eq_false]
          intro b hb hcontra
          rw [Bool.and_eq_true] at hcontra
          exact hall b hb hcontra.1
        simp [this]
      | some a =>
        have hmem := List.mem_of_find?_eq_some hf
        have hpa := List.find?_some hf
        have hau : a.user = u := eq_of_beq hpa
        have : o.acl.any (fun b => b.user == u && b.permission_read)
            = a.permission_read := by
          cases hr : a.permission_read with
          | true =>
            exact List.any_eq_true.mpr
              ⟨a, hmem, by rw [Bool.and_eq_true, hr]; exact ⟨beq_of_eq hau, rfl⟩⟩
          | false =>
            rw [List.any_eq_false]
            intro b hb hcontra
            rw [Bool.and_eq_true] at hcontra
            have hba : b = a :=
              unique_user_eq h hb hmem ((eq_of_beq hcontra.1).trans hau.symm)
            rw [hba, hr] at hcontra
            exact Bool.false_ne_true hcontra.2
        simp [this]

/-- Branch analysis of `ace_make_public`: the store either comes back
unchanged, or, exactly when no ACE carried the public sentinel, gains the
single new public ACE with only the read flag set. -/
lemma make_public_cases (o : Resource) (u : Option Nat) :
    (ace_make_public o u).1 = o ∨
    ((∀ a ∈ o.acl, a.user ≠ none) ∧
      (ace_make_public o u).1
        = { o with acl := o.acl ++ [⟨none, true, false, false⟩] }) := by
  unfold ace_make_public aclGet
  cases ace_can_write o u with
  | error e => exact Or.inl rfl
  | ok b =>
    cases b with
    | false => exact Or.inl rfl
    | true =>
      cases hf : o.acl.filter (fun a => a.user == none) with
      | nil =>
        refine Or.inr ⟨?_, rfl⟩
        intro a ha
        have := List.filter_eq_nil_iff.mp hf a ha
        simpa using this
      | cons a t =>
        cases t with
        | nil => exact Or.inl rfl
        | cons b t2 => exact Or.inl rfl

/-- Branch analysis of `ace_make_private`: the store either comes back
unchanged or has one ACE erased. -/
lemma make_private_cases (o : Resource) (u : Option Nat) :
    (ace_make_private o u).1 = o ∨
    ∃ ace, (ace_make_private o u).1 = { o with acl := o.acl.erase ace } := by
  unfold ace_make_private aclGet
  cases ace_can_write o u with
  | error e => exact Or.inl rfl
  | ok b =>
    cases b with
    | false => exact Or.inl rfl
    | true =>
      cases hf : o.acl.filter (fun a => a.user == none) with
      | nil => exact Or.inl rfl
      | cons a t =>
        cases t with
        | nil => exact Or.inr ⟨a, rfl⟩
        | cons b t2 => exact Or.inl rfl

/-- `ace_make_public` preserves the uniqueness invariant: it only creates a
public ACE when the lookup found none. -/
lemma make_public_preserves_unique (o : Resource) (u : Option Nat)
    (h : uniqueACL o) : uniqueACL (ace_make_public o u).1 := by
  rcases make_public_cases o u with heq | ⟨hall, heq⟩
  · rw [heq]; exact h
  · rw [heq]
    unfold uniqueACL at h ⊢
    rw [List.pairwise_append]
    refine ⟨h, List.pairwise_singleton _ _, ?_⟩
    intro a ha b hb
    rw [List.mem_singleton] at hb
    subst hb
    exact hall a ha

/-- `ace_make_private` preserves the uniqueness invariant: it only ever
erases an ACE. -/
lemma make_private_preserves_unique (o : Resource) (u : Option Nat)
    (h : uniqueACL o) : uniqueACL (ace_make_private o u).1 := by
  rcases make_private_cases o u with heq | ⟨ace, heq⟩
  · rw [heq]; exact h
  · rw [heq]
    exact List.Pairwise.sublist (List.erase_sublist ace o.acl) h

/-- The owner is untouched by `ace_make_public`. -/
lemma make_public_owner (o : Resource) (u : Option Nat) :
    (ace_make_public o u).1.owner = o.owner := by
  rcases make_public_cases o u with heq | ⟨_, heq⟩ <;> rw [heq]

/-- Under the uniqueness invariant, once some ACE of the store carries user
`u`, the read-flag search over the whole store answers exactly that flag. -/
lemma any_user_read_eq {o : Resource} (h : uniqueACL o) {u : Option Nat}
    {a : ACE} (hmem : a ∈ o.acl) (hau : a.user = u) :
    o.acl.any (fun b => b.user == u && b.permission_read)
      = a.permission_read := by
  cases hr : a.permission_read with
  | true =>
    exact List.any_eq_true.mpr
      ⟨a, hmem, by rw [Bool.and_eq_true, hr]; exact ⟨beq_of_eq hau, rfl⟩⟩
  | false =>
    rw [List.any_eq_false]
    intro b hb hcontra
    rw [Bool.and_eq_true] at hcontra
    have hba : b = a :=
      unique_user_eq h hb hmem ((eq_of_beq hcontra.1).trans hau.symm)
    rw [hba, hr] at hcontra
    exact Bool.false_ne_true hcontra.2

/-- C1: `ace_can_read` evaluates in strict precedence order.  The owner is
always granted; otherwise a public resource is readable by anyone, so a
personal ACE carrying `permission_read = false` is ignored once the resource
is public; otherwise the personal ACE decides via its `permission_read`
flag, and absence of a personal ACE denies. -/
theorem can_read_strict_precedence (o : Resource) (u : Option Nat)
    (h : uniqueACL o) :
    (u = some o.owner → ace_can_read o u = .ok true)
    ∧ (u ≠ some o.owner →
        (∃ a ∈ o.acl, a.user = none ∧ a.permission_read = true) →
        ace_can_read o u = .ok true)
    ∧ (u ≠ some o.owner →
        (¬ ∃ a ∈ o.acl, a.user = none ∧ a.permission_read = true) →
        ((∀ b ∈ o.acl, b.user ≠ u) → ace_can_read o u = .ok false)
        ∧ (∀ a ∈ o.acl, a.user = u →
            ace_can_read o u = .ok a.permission_read)) := by
  refine ⟨?_, ?_, ?_⟩
  · intro hu
    rw [ace_can_read_eq o u h, beq_of_eq hu]
    rfl
  · intro hu hex
    rcases hex with ⟨a, ha, h1, h2⟩
    have hpub : o.acl.any (fun a => a.user == none && a.permission_read)
        = true :=
      List.any_eq_true.mpr ⟨a, ha, by rw [h1, h2]; rfl⟩
    rw [ace_can_read_eq o u h, hpub]
    simp
  · intro hu hnex
    have hpub : o.acl.any (fun a => a.user == none && a.permission_read)
        = false := by
      rw [List.any_eq_false]
      intro b hb hcontra
      rw [Bool.and_eq_true] at hcontra
      exact hnex ⟨b, hb, eq_of_beq hcontra.1, hcontra.2⟩
    constructor
    · intro hnone
      have hper : o.acl.any (fun a => a.user == u && a.permission_read)
          = false := by
        rw [List.any_eq_false]
        intro b hb hcontra
        rw [Bool.and_eq_true] at hcontra
        exact hnone b hb (eq_of_beq hcontra.1)
      rw [ace_can_read_eq o u h, hpub, hper, beq_eq_false_iff_ne.mpr hu]
      rfl
    · intro a ha hau
      rw [ace_can_read_eq o u h, hpub, beq_eq_false_iff_ne.mpr hu,
        any_user_read_eq h ha hau]
      rfl

/-- Witness for C1 at a concrete store: a public resource is readable by an
actor whose personal ACE denies read. -/
theorem can_read_strict_precedence_witness :
    ace_can_read
        ⟨0, [⟨none, true, false, false⟩, ⟨some 1, false, false, false⟩]⟩
        (some 1)
      = .ok true :=
  (can_read_strict_precedence
      ⟨0, [⟨none, true, false, false⟩, ⟨some 1, false, false, false⟩]⟩
      (some 1) (by decide)).2.1 (by decide)
    ⟨⟨none, true, false, false⟩, by decide, rfl, rfl⟩

/-- C4: `ace_can_write` grants exactly the owner and actors whose personal
ACE carries `permission_write = true`; public status never grants write, so
after `ace_make_public` (by any actor) a non-owner with no personal write
grant still gets `false`. -/
theorem can_write_owner_or_personal_grant (o : Resource) (u w : Option Nat)
    (h : uniqueACL o) :
    (ace_can_write o u = .ok true ↔
      u = some o.owner ∨ ∃ a ∈ o.acl, a.user = u ∧ a.permission_write = true)
    ∧ (u ≠ some o.owner →
        (¬ ∃ a ∈ o.acl, a.user = u ∧ a.permission_write = true) →
        ace_can_write (ace_make_public o w).1 u = .ok false) := by
  constructor
  · rw [ace_can_write_eq o u h]
    constructor
    · intro hok
      have hb : (u == some o.owner
          || o.acl.any (fun a => a.user == u && a.permission_write))
          = true := by
        injection hok
      rw [Bool.or_eq_true] at hb
      rcases hb with hb | hb
      · exact Or.inl (eq_of_beq hb)
      · rcases List.any_eq_true.mp hb with ⟨a, ha, hpa⟩
        rw [Bool.and_eq_true] at hpa
        exact Or.inr ⟨a, ha, eq_of_beq hpa.1, hpa.2⟩
    · intro hor
      rcases hor with hu | ⟨a, ha, h1, h2⟩
      · rw [beq_of_eq hu]
        rfl
      · have : o.acl.any (fun a => a.user == u && a.permission_write)
            = true :=
          List.any_eq_true.mpr
            ⟨a, ha, by rw [Bool.and_eq_true, h2]; exact ⟨beq_of_eq h1, rfl⟩⟩
        rw [this, Bool.or_true]
  · intro hu hnex
    have h2 : uniqueACL (ace_make_public o w).1 :=
      make_public_preserves_unique o w h
    rw [ace_can_write_eq _ u h2]
    have hbeq : (u == some (ace_make_public o w).1.owner) = false := by
      rw [make_public_owner o w]
      exact beq_eq_false_iff_ne.mpr hu
    have hany : (ace_make_public o w).1.acl.any
        (fun a => a.user == u && a.permission_write) = false := by
      rw [List.any_eq_false]
      intro b hb hcontra
      rw [Bool.and_eq_true] at hcontra
      rcases make_public_cases o w with heq | ⟨hall, heq⟩
      · rw [heq] at hb
        exact hnex ⟨b, hb, eq_of_beq hcontra.1, hcontra.2⟩
      · rw [heq] at hb
        have hb2 : b ∈ o.acl ++ [(⟨none, true, false, false⟩ : ACE)] := hb
        rw [List.mem_append] at hb2
        rcases hb2 with hb2 | hb2
        · exact hnex ⟨b, hb2, eq_of_beq hcontra.1, hcontra.2⟩
        · rw [List.mem_singleton] at hb2
          subst hb2
          exact Bool.false_ne_true hcontra.2
    rw [hbeq, hany]
    rfl

/-- Witness for C4 at a concrete store: after publication by the owner, a
stranger still cannot write. -/
theorem can_write_owner_or_personal_grant_witness :
    ace_can_write
        (ace_make_public ⟨0, [⟨some 1, true, false, false⟩]⟩ (some 0)).1
        (some 2)
      = .ok false :=
  (can_write_owner_or_personal_grant ⟨0, [⟨some 1, true, false, false⟩]⟩
      (some 2) (some 0) (by decide)).2 (by decide) (by decide)

/-- C6: `ace_is_public` answers true exactly when a public ACE (user is the
sentinel) with `permission_read = true` exists; absence of a public ACE, or
a public ACE with the read flag cleared, yields false (and never an
exception, under the uniqueness invariant). -/
theorem is_public_iff_public_read_ace (o : Resource) (h : uniqueACL o) :
    (ace_is_public o = .ok true ↔
      ∃ a ∈ o.acl, a.user = none ∧ a.permission_read = true)
    ∧ (ace_is_public o = .ok false ↔
      ¬ ∃ a ∈ o.acl, a.user = none ∧ a.permission_read = true) := by
  rw [ace_is_public_eq o h]
  constructor
  · constructor
    · intro hok
      have hb : o.acl.any (fun a => a.user == none && a.permission_read)
          = true := by
        injection hok
      rcases List.any_eq_true.mp hb with ⟨a, ha, hpa⟩
      rw [Bool.and_eq_true] at hpa
      exact ⟨a, ha, eq_of_beq hpa.1, hpa.2⟩
    · rintro ⟨a, ha, h1, h2⟩
      have : o.acl.any (fun a => a.user == none && a.permission_read)
          = true :=
        List.any_eq_true.mpr ⟨a, ha, by rw [h1, h2]; rfl⟩
      rw [this]
  · constructor
    · intro hok hex
      rcases hex with ⟨a, ha, h1, h2⟩
      have : o.acl.any (fun a => a.user == none && a.permission_read)
          = true :=
        List.any_eq_true.mpr ⟨a, ha, by rw [h1, h2]; rfl⟩
      rw [this] at hok
      simp at hok
    · intro hnex
      have : o.acl.any (fun a => a.user == none && a.permission_read)
          = false := by
        rw [List.any_eq_false]
        intro b hb hcontra
        rw [Bool.and_eq_true] at hcontra
        exact hnex ⟨b, hb, eq_of_beq hcontra.1, hcontra.2⟩
      rw [this]

/-- Witness for C6 at a concrete store: a public ACE with the read flag
cleared does not make the resource public. -/
theorem is_public_iff_public_read_ace_witness :
    ace_is_public ⟨3, [⟨none, false, true, false⟩]⟩ = .ok false :=
  (is_public_iff_public_read_ace ⟨3, [⟨none, false, true, false⟩]⟩
      (by decide)).2.mpr (by decide)

/-- C7: when `ace_can_write` answers false, `ace_make_public` and
`ace_make_private` are silent no-ops: no exception, the store unchanged, so
`ace_is_public` before and after agrees. -/
theorem make_ops_silent_noop_unauthorized (o : Resource) (u : Option Nat)
    (h : ace_can_write o u = .ok false) :
    ace_make_public o u = (o, none)
    ∧ ace_make_private o u = (o, none)
    ∧ ace_is_public (ace_make_public o u).1 = ace_is_public o
    ∧ ace_is_public (ace_make_private o u).1 = ace_is_public o := by
  have h1 : ace_make_public o u = (o, none) := by
    unfold ace_make_public
    rw [h]
  have h2 : ace_make_private o u = (o, none) := by
    unfold ace_make_private
    rw [h]
  exact ⟨h1, h2, by rw [h1], by rw [h2]⟩

/-- Witness for C7 at a concrete store: a stranger asking to publish an
empty-ACL resource changes nothing. -/
theorem make_ops_silent_noop_unauthorized_witness :
    ace_make_public ⟨0, []⟩ (some 5) = (⟨0, []⟩, none)
    ∧ ace_make_private ⟨0, []⟩ (some 5) = (⟨0, []⟩, none) :=
  ⟨(make_ops_silent_noop_unauthorized ⟨0, []⟩ (some 5) (by decide)).1,
   (make_ops_silent_noop_unauthorized ⟨0, []⟩ (some 5) (by decide)).2.1⟩

/-- C8: the uniqueness invariant (at most one ACE per actor, the public
sentinel included) is preserved by the mutating evaluator operations;
`ace_is_public`, `ace_can_read` and `ace_can_write` are read-only in the
embedding (they return no store), so the mutations are the whole content.
`ace_make_public` only creates a public ACE when the lookup found none, and
`ace_make_private` only erases. -/
theorem uniqueness_invariant_preserved (o : Resource) (u : Option Nat)
    (h : uniqueACL o) :
    uniqueACL (ace_make_public o u).1 ∧ uniqueACL (ace_make_private o u).1 :=
  ⟨make_public_preserves_unique o u h, make_private_preserves_unique o u h⟩

/-- Witness for C8 at a concrete store: publishing by the owner keeps the
invariant. -/
theorem uniqueness_invariant_preserved_witness :
    uniqueACL (ace_make_public ⟨0, [⟨some 1, true, true, false⟩]⟩ (some 0)).1
    ∧ uniqueACL
        (ace_make_private ⟨0, [⟨some 1, true, true, false⟩]⟩ (some 0)).1 :=
  uniqueness_invariant_preserved ⟨0, [⟨some 1, true, true, false⟩]⟩ (some 0)
    (by decide)

/-- C10: an anonymous caller (the public sentinel as actor) can read exactly
the public resources: `ace_can_read` with actor `none` agrees with
`ace_is_public`, because the personal lookup of the anonymous caller finds
the public ACE itself.  The owner is a non-nullable foreign key in the
source, so it never equals the sentinel by construction of `Resource`. -/
theorem anonymous_can_read_iff_public (o : Resource) (h : uniqueACL o) :
    ace_can_read o none = ace_is_public o := by
  rw [ace_can_read_eq o none h, ace_is_public_eq o h]
  simp

/-- Witness for C10 at a concrete store: a resource whose public ACE has
the read flag cleared is not readable anonymously. -/
theorem anonymous_can_read_iff_public_witness :
    ace_can_read ⟨7, [⟨none, false, false, false⟩]⟩ none
      = ace_is_public ⟨7, [⟨none, false, false, false⟩]⟩ :=
  anonymous_can_read_iff_public ⟨7, [⟨none, false, false, false⟩]⟩ (by decide)

/-- C2 (code bug): evaluation at the failing inputs.  With an existing
public ACE — whichever value its read flag has — `ace_make_public` raises
`AttributeError` from the `ace.read` access (the model field is named
`permission_read`), instead of the specified no-op / flag update. -/
theorem make_public_attribute_error_eval :
    ace_make_public ⟨0, [⟨none, true, false, false⟩]⟩ (some 0)
      = (⟨0, [⟨none, true, false, false⟩]⟩, some PyError.attributeError)
    ∧ ace_make_public ⟨0, [⟨none, false, false, false⟩]⟩ (some 0)
      = (⟨0, [⟨none, false, false, false⟩]⟩, some PyError.attributeError) := by
  decide

/-- C3 (code bug): the first `ace_make_public` on a private resource
succeeds and makes it public, but the second call in a row hits the
`ace.read` slip and raises `AttributeError` instead of no-opping. -/
theorem make_public_twice_raises_eval :
    (ace_make_public ⟨0, []⟩ (some 0)).2 = none
    ∧ ace_is_public (ace_make_public ⟨0, []⟩ (some 0)).1 = .ok true
    ∧ ace_make_public (ace_make_public ⟨0, []⟩ (some 0)).1 (some 0)
      = ((ace_make_public ⟨0, []⟩ (some 0)).1, some PyError.attributeError) := by
  decide

/-- C5 (code bug): `get_collaborators` puts the ACE records themselves into
the returned set (`collaborators_set.add(ace)`), not the actor identities
its own docstring promises. -/
theorem get_collaborators_returns_ace_records :
    get_collaborators ⟨0, [⟨some 1, true, true, false⟩]⟩
      = {(⟨some 1, true, true, false⟩ : ACE)} := by
  decide

/-- C9 (code bug): on a resource that already has a public ACE, the round
trip `make_public` then `make_private` aborts inside `make_public` with the
`AttributeError` from the `ace.read` slip, and the resource is left public
instead of ending private. -/
theorem round_trip_aborts_eval :
    publicThenPrivate ⟨0, [⟨none, true, false, false⟩]⟩ (some 0)
      = (⟨0, [⟨none, true, false, false⟩]⟩, some PyError.attributeError)
    ∧ ace_is_public
        (publicThenPrivate ⟨0, [⟨none, true, false, false⟩]⟩ (some 0)).1
      = .ok true := by
  decide

